import Mathlib

/-!
Verification model of the lease manager in `internal/lease/manager.go` and the
slog handler in the same package.

Time is modelled as `Nat` (UTC instants).  The Go code reads `time.Now()` once
per decision point; each modelled operation takes the current instant `now` as
an explicit parameter.  A `*time.Timer` created by `time.AfterFunc` is modelled
as the currently armed timer of the manager: `Timer.fireAt` is the absolute
instant the deferred disable is scheduled for, and `Timer.id` is a generation
token (fresh per arming) used to express staleness; a timer that has been
`Stop()`ed is no longer armed, so the model drops it.
-/

namespace Lease

/-- A pending deferred-fire timer: generation token and absolute fire time. -/
structure Timer where
  id : Nat
  fireAt : Nat
  deriving Repr, DecidableEq

/-- Process-local manager state (`Manager` in manager.go).  `logger` is an
external sink handle and is modelled at the stream level (see `Streams`
below); `nextId` is the generation counter backing the timer tokens. -/
structure Manager where
  guaranteedUntil : Nat
  enabled : Bool
  expireTimer : Option Timer
  nextId : Nat
  deriving Repr, DecidableEq

/-- `Manager.expireAfter` from manager.go: clamp the candidate up to
`guaranteedUntil`, stop any previously armed timer, then either disable
immediately (candidate strictly before `now`) or enable and arm a fresh
timer for the effective expiration. -/
def expireAfter (m : Manager) (expire now : Nat) : Manager :=
  -- ensure guaranteedUntil is always respected, even if the lease is shorter
  let expire := if expire < m.guaranteedUntil then m.guaranteedUntil else expire
  -- cancel the previous timer if it was unfired (Stop + drain)
  let m := { m with expireTimer := none }
  if expire < now then
    -- already expired, disable immediately
    { m with enabled := false }
  else
    -- enable and set a new timer
    { m with enabled := true,
             expireTimer := some ⟨m.nextId, expire⟩,
             nextId := m.nextId + 1 }

/-- The `time.AfterFunc` callback: fires only if the timer with token `i` is
still the armed one (a `Stop()`ed timer never runs its callback) and its
scheduled instant has been reached; the callback disables the lease. -/
def timerFire (m : Manager) (i now : Nat) : Manager :=
  match m.expireTimer with
  | some t => if t.id = i ∧ t.fireAt ≤ now then { m with enabled := false, expireTimer := none } else m
  | none => m

/-- `NewManager`: zero-valued enabled signal, then `expireAfter guaranteedUntil`
when the floor is still in the future. -/
def newManager (guaranteedUntil now : Nat) : Manager :=
  let m : Manager := { guaranteedUntil := guaranteedUntil, enabled := false,
                       expireTimer := none, nextId := 0 }
  if now < guaranteedUntil then expireAfter m guaranteedUntil now else m

/-- The remote lease document (`Document` in manager.go). -/
structure Document where
  expireAt : Nat
  user : String
  reason : String
  deriving Repr, DecidableEq

/-- One observed value on the snapshot stream: the record is absent, present
with a parseable body, or present but malformed (`DataTo` fails). -/
inductive Snapshot where
  | absent
  | present (d : Document)
  | malformed
  deriving Repr, DecidableEq

/-- One iteration of the `watchLease` loop body for a received snapshot:
absence forces the expiration back to the guaranteed floor, a parse failure
is skipped, and a parsed document feeds its `ExpireAt` into `expireAfter`. -/
def watchStep (m : Manager) (s : Snapshot) (now : Nat) : Manager :=
  match s with
  | .absent => expireAfter m m.guaranteedUntil now
  | .present d => expireAfter m d.expireAt now
  | .malformed => m

/-- Events of the scheduling step relation: an `expireAfter` call made at
instant `now`, or the fire of the timer with token `i` at instant `now`. -/
inductive Event where
  | expireCall (c now : Nat)
  | fire (i now : Nat)
  deriving Repr, DecidableEq

/-- One step of the scheduling relation. -/
def step (m : Manager) (e : Event) : Manager :=
  match e with
  | .expireCall c now => expireAfter m c now
  | .fire i now => timerFire m i now

/-- Run a sequence of scheduling events. -/
def run (m : Manager) (es : List Event) : Manager :=
  es.foldl step m

/-- Run a sequence of `expireAfter` calls given as (candidate, now) pairs. -/
def runCalls (m : Manager) (calls : List (Nat × Nat)) : Manager :=
  calls.foldl (fun st p => expireAfter st p.1 p.2) m

/-! ### Byte writers

The observable sinks: the local standard streams and the remote log sink.
A buffer is a `List Nat` of bytes; each stream records the sequence of
buffers written to it. -/

/-- The three observable byte sinks of the process. -/
structure Streams where
  stdout : List (List Nat)
  stderr : List (List Nat)
  remote : List (List Nat)
  deriving Repr, DecidableEq

/-- A byte writer: `io.Writer.Write` as state transformer returning
(bytes written, error). -/
def Writer : Type := List Nat → Streams → Streams × Nat × Option String

/-- `os.Stdout` as a writer: appends the buffer to the stdout stream. -/
def stdoutW : Writer := fun p s => ({ s with stdout := s.stdout ++ [p] }, p.length, none)

/-- `os.Stderr` as a writer: appends the buffer to the stderr stream. -/
def stderrW : Writer := fun p s => ({ s with stderr := s.stderr ++ [p] }, p.length, none)

/-- `logger.StandardLogger(sev).Writer()` as a writer: appends the buffer to
the remote sink stream. -/
def remoteW : Writer := fun p s => ({ s with remote := s.remote ++ [p] }, p.length, none)

/-- `io.MultiWriter w1 w2`: write to each in turn, stopping at the first
error or short write. -/
def multiWriter (w1 w2 : Writer) : Writer := fun p s =>
  match w1 p s with
  | (s1, n1, some e) => (s1, n1, some e)
  | (s1, n1, none) =>
    if n1 ≠ p.length then (s1, n1, some "short write")
    else
      match w2 p s1 with
      | (s2, n2, some e) => (s2, n2, some e)
      | (s2, n2, none) =>
        if n2 ≠ p.length then (s2, n2, some "short write")
        else (s2, p.length, none)

/-- `toggleableWriter` from manager.go: an upstream used while the lease is
enabled and an optional fallback used otherwise. -/
structure ToggleableWriter where
  upstream : Writer
  fallback : Option Writer

/-- `toggleableWriter.Write`: upstream when enabled, else fallback when set,
else discard reporting full success. -/
def toggleableWriterWrite (tw : ToggleableWriter) (enabled : Bool) (p : List Nat)
    (s : Streams) : Streams × Nat × Option String :=
  if enabled then tw.upstream p s
  else
    match tw.fallback with
    | some f => f p s
    | none => (s, p.length, none)

/-- `Manager.StdoutWriter`: upstream multi-writes to stdout and the remote
INFO logger; fallback is stdout alone. -/
def stdoutWriter : ToggleableWriter :=
  { upstream := multiWriter stdoutW remoteW, fallback := some stdoutW }

/-- `Manager.StderrWriter`: unconditionally multi-writes to stderr and the
remote ERROR logger. -/
def stderrWriter : Writer := multiWriter stderrW remoteW

/-- `Manager.Write`: ship the buffer to the remote sink when the lease is
enabled; otherwise discard it, reporting the full length and no error. -/
def managerWrite (enabled : Bool) (p : List Nat) (s : Streams) :
    Streams × Nat × Option String :=
  if enabled then remoteW p s
  else (s, p.length, none)

/-! ### Structured log handler (`slogger`)

`slog.Level` is an `Int` (Debug = -4, Info = 0, Warn = 4, Error = 8).  The
handler fields `logger`, `lw` and `stdoutLogger` are ambient handles; the
enabled signal is passed to `handle` explicitly and the emitted outputs are
returned as values. -/

/-- One `slog.Attr`, with the value already rendered (`a.Value.String()`). -/
structure Attr where
  key : String
  val : String
  deriving Repr, DecidableEq

/-- A structured log record (`slog.Record`). -/
structure Record where
  time : Nat
  level : Int
  message : String
  attrs : List Attr
  deriving Repr, DecidableEq

/-- The remote sink's severity levels (`logging.Severity`). -/
inductive Severity where
  | debug
  | info
  | warning
  | error
  | unspecified
  deriving Repr, DecidableEq

/-- `getSeverity`: switch on the exact slog level with `logging.Default`
(here `unspecified`) as fallback. -/
def getSeverity (l : Int) : Severity :=
  if l = -4 then .debug
  else if l = 0 then .info
  else if l = 4 then .warning
  else if l = 8 then .error
  else .unspecified

/-- A shipped structured entry (`logging.Entry`): labels are the Go map as a
canonical association list, first-written key first, later writes to a key
replacing its value in place. -/
structure Entry where
  timestamp : Nat
  severity : Severity
  payload : String
  labels : List (String × String)
  deriving Repr, DecidableEq

/-- Map assignment `labels[k] = v`: replace in place or append. -/
def putLabel (m : List (String × String)) (k v : String) : List (String × String) :=
  match m with
  | [] => [(k, v)]
  | (k', v') :: rest => if k' = k then (k, v) :: rest else (k', v') :: putLabel rest k v

/-- Build the labels map by iterating the attrs in order (later wins). -/
def buildLabels (attrs : List Attr) : List (String × String) :=
  attrs.foldl (fun m a => putLabel m a.key a.val) []

/-- Map lookup in the association-list representation. -/
def labelsGet : List (String × String) → String → Option String
  | [], _ => none
  | (k', v) :: rest, k => if k' = k then some v else labelsGet rest k

/-- The handler state (`slogger`): accumulated attributes and groups. -/
structure Slogger where
  attrs : List Attr
  groups : List String
  deriving Repr, DecidableEq

/-- What one `Handle` call emits: the record written to the local text
stream (with the handler's attrs appended) and the optionally shipped
remote entry. -/
structure HandleResult where
  localRec : Record
  shipped : Option Entry
  deriving Repr, DecidableEq

/-- `slogger.Handle`: append the handler's attrs to the record, build the
labels map, always emit locally, then ship unless the lease is disabled and
the level is below `slog.LevelError`. -/
def handle (s : Slogger) (enabled : Bool) (r : Record) : HandleResult :=
  let r' : Record := { r with attrs := r.attrs ++ s.attrs }
  let labels := buildLabels r'.attrs
  if !enabled && decide (r.level < 8) then
    { localRec := r', shipped := none }
  else
    { localRec := r',
      shipped := some { timestamp := r.time, severity := getSeverity r.level,
                        payload := r.message, labels := labels } }

/-- `slogger.WithAttrs`: clone-and-append the attribute list. -/
def withAttrs (s : Slogger) (attrs : List Attr) : Slogger :=
  { s with attrs := s.attrs ++ attrs }

/-- `slogger.WithGroup`: clone-and-append the group list. -/
def withGroup (s : Slogger) (g : String) : Slogger :=
  { s with groups := s.groups ++ [g] }

/-- The labels of the shipped entry of a handle result (empty if nothing
was shipped). -/
def shippedLabels (h : HandleResult) : List (String × String) :=
  match h.shipped with
  | some e => e.labels
  | none => []

/-- The armed-timer token is always below the generation counter. -/
def WF (m : Manager) : Prop :=
  match m.expireTimer with
  | some t => t.id < m.nextId
  | none => True

/-- Run a list of fire attempts of the (stale) timer token `i`. -/
def fireStale (i : Nat) (m : Manager) (ts : List Nat) : Manager :=
  ts.foldl (fun st n2 => timerFire st i n2) m

/-! ## Scheduler lemmas -/

theorem clamp_eq_max (c g : Nat) : (if c < g then g else c) = max c g := by
  rw [Nat.max_def]
  split <;> split <;> omega

/-- Canonical form of `expireAfter`. -/
theorem expireAfter_eq (m : Manager) (c now : Nat) :
    expireAfter m c now =
      if max c m.guaranteedUntil < now then
        { m with enabled := false, expireTimer := none }
      else
        { m with enabled := true,
                 expireTimer := some ⟨m.nextId, max c m.guaranteedUntil⟩,
                 nextId := m.nextId + 1 } := by
  simp only [expireAfter, clamp_eq_max]

theorem expireAfter_guaranteedUntil (m : Manager) (c now : Nat) :
    (expireAfter m c now).guaranteedUntil = m.guaranteedUntil := by
  rw [expireAfter_eq]
  split <;> rfl

theorem timerFire_guaranteedUntil (m : Manager) (i now : Nat) :
    (timerFire m i now).guaranteedUntil = m.guaranteedUntil := by
  unfold timerFire
  rcases m.expireTimer with _ | t
  · rfl
  · dsimp only
    split <;> rfl

theorem step_guaranteedUntil (m : Manager) (e : Event) :
    (step m e).guaranteedUntil = m.guaranteedUntil := by
  cases e with
  | expireCall c now => exact expireAfter_guaranteedUntil m c now
  | fire i now => exact timerFire_guaranteedUntil m i now

theorem run_guaranteedUntil (m : Manager) (es : List Event) :
    (run m es).guaranteedUntil = m.guaranteedUntil := by
  induction es generalizing m with
  | nil => rfl
  | cons e rest ih =>
    show (run (step m e) rest).guaranteedUntil = m.guaranteedUntil
    rw [ih (step m e), step_guaranteedUntil]

theorem runCalls_guaranteedUntil (m : Manager) (calls : List (Nat × Nat)) :
    (runCalls m calls).guaranteedUntil = m.guaranteedUntil := by
  induction calls generalizing m with
  | nil => rfl
  | cons p rest ih =>
    show (runCalls (expireAfter m p.1 p.2) rest).guaranteedUntil = m.guaranteedUntil
    rw [ih (expireAfter m p.1 p.2), expireAfter_guaranteedUntil]

/-- Any `expireAfter` call made strictly before the floor elapses enables. -/
theorem expireAfter_enabled_of_now_lt_floor (m : Manager) (c now : Nat)
    (h : now < m.guaranteedUntil) : (expireAfter m c now).enabled = true := by
  rw [expireAfter_eq, if_neg (by omega : ¬ max c m.guaranteedUntil < now)]

/-- The token `i` is stale for `m`: below the generation counter and below
any armed timer's token. -/
def StaleFor (i : Nat) (m : Manager) : Prop :=
  i < m.nextId ∧
    match m.expireTimer with
    | some u => i < u.id
    | none => True

theorem timerFire_of_staleFor (m : Manager) (i n : Nat) (h : StaleFor i m) :
    timerFire m i n = m := by
  obtain ⟨g, en, timer, nid⟩ := m
  obtain ⟨h1, h2⟩ := h
  rcases timer with _ | u
  · rfl
  · dsimp only at h2
    unfold timerFire
    dsimp only
    rw [if_neg]
    rintro ⟨he, _⟩
    omega

theorem staleFor_expireAfter (m : Manager) (i c now : Nat) (h : StaleFor i m) :
    StaleFor i (expireAfter m c now) := by
  obtain ⟨h1, _⟩ := h
  rw [expireAfter_eq]
  split
  · exact ⟨h1, trivial⟩
  · constructor
    · show i < m.nextId + 1
      omega
    · show i < m.nextId
      omega

theorem staleFor_timerFire (m : Manager) (i j now : Nat) (h : StaleFor i m) :
    StaleFor i (timerFire m j now) := by
  obtain ⟨g, en, timer, nid⟩ := m
  obtain ⟨h1, h2⟩ := h
  rcases timer with _ | u
  · exact ⟨h1, trivial⟩
  · unfold timerFire
    dsimp only at h2 ⊢
    split
    · exact ⟨h1, trivial⟩
    · exact ⟨h1, h2⟩

theorem staleFor_step (m : Manager) (i : Nat) (e : Event) (h : StaleFor i m) :
    StaleFor i (step m e) := by
  cases e with
  | expireCall c now => exact staleFor_expireAfter m i c now h
  | fire j now => exact staleFor_timerFire m i j now h

theorem staleFor_run (m : Manager) (i : Nat) (es : List Event) (h : StaleFor i m) :
    StaleFor i (run m es) := by
  induction es generalizing m with
  | nil => exact h
  | cons e rest ih => exact ih (step m e) (staleFor_step m i e h)

/-! ## Claim theorems: scheduler -/

/-- C1 (counterexample): the claimed strict-inequality form of the
guaranteed-floor invariant fails when the effective expiration equals the
current instant: with floor 5, candidate 5 and now = 5 the code enables
(arming a zero-duration timer), while `max(c, guaranteedUntil) > now` is
false. -/
theorem expireAfter_strict_boundary_counterexample :
    (expireAfter ⟨5, false, none, 0⟩ 5 5).enabled
      ≠ decide (max 5 (Manager.guaranteedUntil ⟨5, false, none, 0⟩) > 5) := by
  decide

/-- C1 (amended): after `expireAfter c` at instant `now`, the enabled signal
equals `max(c, guaranteedUntil) ≥ now` (non-strict): the code disables only
when the effective expiration is strictly before `now`, and an effective
expiration exactly equal to `now` enables with a zero-duration timer. -/
theorem expireAfter_enabled_iff (m : Manager) (c now : Nat) :
    (expireAfter m c now).enabled = decide (now ≤ max c m.guaranteedUntil) := by
  rw [expireAfter_eq]
  rcases Nat.lt_or_ge (max c m.guaranteedUntil) now with h | h
  · rw [if_pos h]
    exact (decide_eq_false (by omega)).symm
  · rw [if_neg (by omega)]
    exact (decide_eq_true (by omega)).symm

/-- C2: `guaranteedUntil` is preserved by every scheduling event, and any
nonempty prefix of a sequence of `expireAfter` calls whose candidates and
call instants all lie strictly before the floor leaves the lease enabled. -/
theorem monotonic_floor (m : Manager) (events : List Event) (calls : List (Nat × Nat))
    (hc : ∀ p ∈ calls, p.1 < m.guaranteedUntil)
    (hn : ∀ p ∈ calls, p.2 < m.guaranteedUntil)
    (i : Nat) (h1 : 0 < i) (h2 : i ≤ calls.length) :
    (run m events).guaranteedUntil = m.guaranteedUntil ∧
    (runCalls m (calls.take i)).guaranteedUntil = m.guaranteedUntil ∧
    (runCalls m (calls.take i)).enabled = true := by
  refine ⟨run_guaranteedUntil m events, runCalls_guaranteedUntil m _, ?_⟩
  obtain ⟨j, rfl⟩ : ∃ j, i = j + 1 := ⟨i - 1, by omega⟩
  have hj : j < calls.length := by omega
  have hget : calls[j]? = some calls[j] := List.getElem?_eq_getElem hj
  have hfloor := runCalls_guaranteedUntil m (calls.take j)
  unfold runCalls at hfloor ⊢
  rw [List.take_succ, hget, Option.toList_some, List.foldl_append, List.foldl_cons,
    List.foldl_nil]
  apply expireAfter_enabled_of_now_lt_floor
  rw [hfloor]
  exact hn calls[j] (List.getElem_mem hj)

/-- C2 witness: a concrete run with floor 10, one stale fire event, and two
calls below the floor, taken in full. -/
theorem monotonic_floor_witness :
    (run ⟨10, false, none, 0⟩ [.fire 0 3]).guaranteedUntil = 10 ∧
    (runCalls ⟨10, false, none, 0⟩ ([(1, 2), (3, 4)].take 2)).guaranteedUntil = 10 ∧
    (runCalls ⟨10, false, none, 0⟩ ([(1, 2), (3, 4)].take 2)).enabled = true :=
  monotonic_floor ⟨10, false, none, 0⟩ [.fire 0 3] [(1, 2), (3, 4)]
    (by decide) (by decide) 2 (by decide) (by decide)

/-- C5: a watcher notification reporting an absent record calls
`expireAfter guaranteedUntil`: if the floor has already elapsed the lease
disables immediately with no timer armed, otherwise it stays enabled with a
timer armed for exactly the floor. -/
theorem absence_handling (m : Manager) (now : Nat) :
    (watchStep m .absent now).enabled = decide (now ≤ m.guaranteedUntil) ∧
    (watchStep m .absent now).expireTimer =
      (if now ≤ m.guaranteedUntil then some ⟨m.nextId, m.guaranteedUntil⟩ else none) := by
  unfold watchStep
  rw [expireAfter_eq, Nat.max_self]
  rcases Nat.lt_or_ge m.guaranteedUntil now with h | h
  · rw [if_pos h, if_neg (by omega)]
    exact ⟨(decide_eq_false (by omega)).symm, rfl⟩
  · rw [if_neg (by omega), if_pos h]
    exact ⟨(decide_eq_true h).symm, rfl⟩

/-- C6: an `expireAfter` call that re-enables leaves the lease enabled, and
the superseded timer's disable action is a no-op — it changes nothing, in
particular never clears the enabled signal — at every later point of any
continuation of the run. -/
theorem timer_supersession (m : Manager) (t : Timer) (c now : Nat)
    (ht : m.expireTimer = some t) (hwf : WF m)
    (hre : now ≤ max c m.guaranteedUntil) :
    (expireAfter m c now).enabled = true ∧
    ∀ (es : List Event) (n2 : Nat),
      timerFire (run (expireAfter m c now) es) t.id n2
        = run (expireAfter m c now) es := by
  have hwf' : t.id < m.nextId := by
    unfold WF at hwf
    rw [ht] at hwf
    exact hwf
  have hstale : StaleFor t.id (expireAfter m c now) := by
    rw [expireAfter_eq, if_neg (by omega)]
    constructor
    · show t.id < m.nextId + 1
      omega
    · show t.id < m.nextId
      omega
  constructor
  · rw [expireAfter_eq, if_neg (by omega)]
  · intro es n2
    exact timerFire_of_staleFor _ _ _ (staleFor_run _ t.id es hstale)

/-- C6 witness: floor 5, armed timer token 0 firing at 7, superseding call
with candidate 20 at instant 6, then a later call; the stale token-0 fire at
instant 9 changes nothing. -/
theorem timer_supersession_witness :
    (expireAfter ⟨5, true, some ⟨0, 7⟩, 1⟩ 20 6).enabled = true ∧
    timerFire (run (expireAfter ⟨5, true, some ⟨0, 7⟩, 1⟩ 20 6) [.expireCall 30 8]) 0 9
      = run (expireAfter ⟨5, true, some ⟨0, 7⟩, 1⟩ 20 6) [.expireCall 30 8] := by
  have h := timer_supersession ⟨5, true, some ⟨0, 7⟩, 1⟩ ⟨0, 7⟩ 20 6 rfl
    (by show (0 : Nat) < 1; decide) (by decide)
  exact ⟨h.1, h.2 [.expireCall 30 8] 9⟩

/-! ## Claim theorems: byte writers -/

/-- C3: a write through `StdoutWriter` always appends the buffer to the
local stdout stream, appends it to the remote sink exactly when the lease
is enabled at the time of the write, and never touches stderr. -/
theorem primary_writer_gating (enabled : Bool) (p : List Nat) (s : Streams) :
    (toggleableWriterWrite stdoutWriter enabled p s).1.stdout = s.stdout ++ [p] ∧
    (toggleableWriterWrite stdoutWriter enabled p s).1.remote =
      (if enabled then s.remote ++ [p] else s.remote) ∧
    (toggleableWriterWrite stdoutWriter enabled p s).1.stderr = s.stderr := by
  cases enabled <;>
    simp [toggleableWriterWrite, stdoutWriter, multiWriter, stdoutW, remoteW]

/-- C8: with the lease disabled, a write through `StdoutWriter` reports the
full buffer length and no error (the fallback stream absorbs the bytes). -/
theorem primary_writer_disabled_success (p : List Nat) (s : Streams) :
    (toggleableWriterWrite stdoutWriter false p s).2.1 = p.length ∧
    (toggleableWriterWrite stdoutWriter false p s).2.2 = none := by
  simp [toggleableWriterWrite, stdoutWriter, stdoutW]

/-- C9: `Manager.Write` never touches the local stdout or stderr streams;
when disabled it discards the buffer (remote unchanged) while still
reporting the full length with no error, and when enabled it appends the
buffer only to the remote sink. -/
theorem manager_write_remote_only (enabled : Bool) (p : List Nat) (s : Streams) :
    (managerWrite enabled p s).1.stdout = s.stdout ∧
    (managerWrite enabled p s).1.stderr = s.stderr ∧
    (managerWrite enabled p s).1.remote =
      (if enabled then s.remote ++ [p] else s.remote) ∧
    (managerWrite enabled p s).2.1 = p.length ∧
    (managerWrite enabled p s).2.2 = none := by
  cases enabled <;> simp [managerWrite, remoteW]

/-! ## Claim theorems: structured log handler -/

/-- C4: a record is shipped to the remote sink iff the lease is enabled or
the record's level is at or above `slog.LevelError` (8): error-level records
ship even when disabled, lower levels ship only when enabled. -/
theorem handler_severity_override (s : Slogger) (enabled : Bool) (r : Record) :
    (handle s enabled r).shipped.isSome = (enabled || decide (8 ≤ r.level)) := by
  cases enabled with
  | true => simp [handle]
  | false =>
    by_cases h : r.level < 8
    · simp [handle, h, (by omega : ¬ (8 : Int) ≤ r.level)]
    · simp [handle, h, (by omega : (8 : Int) ≤ r.level)]

/-- C10: deriving via `WithGroup` appends to the copied group list and
changes nothing else; handling any record through the derived handler
produces exactly the same local record and the same shipped entry, because
`Handle` never consults the group list. -/
theorem with_group_handle_id (s : Slogger) (g : String) (enabled : Bool) (r : Record) :
    handle (withGroup s g) enabled r = handle s enabled r ∧
    (withGroup s g).groups = s.groups ++ [g] ∧
    (withGroup s g).attrs = s.attrs :=
  ⟨rfl, rfl, rfl⟩

/-! ## Label-map lemmas -/

/-- The value the labels map associates to `k` after iterating `attrs`:
the last attr with key `k` wins. -/
def getAttrs : List Attr → String → Option String
  | [], _ => none
  | a :: rest, k =>
    match getAttrs rest k with
    | some v => some v
    | none => if a.key = k then some a.val else none

theorem labelsGet_putLabel (m : List (String × String)) (k v k' : String) :
    labelsGet (putLabel m k v) k' = if k = k' then some v else labelsGet m k' := by
  induction m with
  | nil => simp [putLabel, labelsGet]
  | cons hd tl ih =>
    obtain ⟨k0, v0⟩ := hd
    by_cases h0 : k0 = k
    · subst h0
      by_cases hk : k0 = k'
      · subst hk
        simp [putLabel, labelsGet]
      · simp [putLabel, labelsGet, hk]
    · by_cases hk : k0 = k'
      · subst hk
        have : ¬ k = k0 := fun h => h0 h.symm
        simp [putLabel, labelsGet, h0, this]
      · simp [putLabel, labelsGet, h0, hk, ih]

theorem labelsGet_foldl_putLabel (as : List Attr) (m : List (String × String))
    (k : String) :
    labelsGet (as.foldl (fun acc a => putLabel acc a.key a.val) m) k =
      match getAttrs as k with
      | some v => some v
      | none => labelsGet m k := by
  induction as generalizing m with
  | nil => simp [getAttrs]
  | cons a rest ih =>
    rw [List.foldl_cons, ih]
    show _ = (match (match getAttrs rest k with
        | some v => some v
        | none => if a.key = k then some a.val else none) with
      | some v => some v
      | none => labelsGet m k)
    cases hr : getAttrs rest k with
    | some v => simp
    | none =>
      rw [labelsGet_putLabel]
      by_cases hk : a.key = k
      · simp [hk]
      · simp [hk]

theorem labelsGet_buildLabels (as : List Attr) (k : String) :
    labelsGet (buildLabels as) k = getAttrs as k := by
  unfold buildLabels
  rw [labelsGet_foldl_putLabel]
  cases getAttrs as k <;> rfl

theorem getAttrs_append (p q : List Attr) (k : String) :
    getAttrs (p ++ q) k =
      match getAttrs q k with
      | some v => some v
      | none => getAttrs p k := by
  induction p with
  | nil => simp only [List.nil_append]; cases getAttrs q k <;> rfl
  | cons a rest ih =>
    show (match getAttrs (rest ++ q) k with
      | some v => some v
      | none => if a.key = k then some a.val else none) = _
    rw [ih]
    cases hq : getAttrs q k with
    | some v => rfl
    | none =>
      show (match getAttrs rest k with
        | some v => some v
        | none => if a.key = k then some a.val else none) = _
      rfl

theorem getAttrs_eq_none (as : List Attr) (k : String) (h : k ∉ as.map Attr.key) :
    getAttrs as k = none := by
  induction as with
  | nil => rfl
  | cons a rest ih =>
    simp only [List.map_cons, List.mem_cons, not_or] at h
    obtain ⟨h1, h2⟩ := h
    show (match getAttrs rest k with
      | some v => some v
      | none => if a.key = k then some a.val else none) = none
    rw [ih h2, if_neg (fun hh => h1 hh.symm)]

/-- With the lease enabled, `Handle` ships an entry whose labels are built
from the record attrs followed by the handler attrs. -/
theorem shippedLabels_handle_true (s : Slogger) (r : Record) :
    shippedLabels (handle s true r) = buildLabels (r.attrs ++ s.attrs) := rfl

/-- C7: deriving with `WithAttrs` appends to a copy of the attribute list
leaving the groups alone; an extra attribute key fresh to the parent and the
record never appears in the labels the parent ships, and on every key not
touched by the extra attributes the child ships exactly the labels the
parent ships (the parent's attributes are not lost). -/
theorem handler_derivation_isolation (s : Slogger) (extra : List Attr) (r : Record)
    (k : String) (hk : k ∈ extra.map Attr.key)
    (hfresh : k ∉ (r.attrs ++ s.attrs).map Attr.key) :
    (withAttrs s extra).attrs = s.attrs ++ extra ∧
    (withAttrs s extra).groups = s.groups ∧
    labelsGet (shippedLabels (handle s true r)) k = none ∧
    ∀ k' ∉ extra.map Attr.key,
      labelsGet (shippedLabels (handle (withAttrs s extra) true r)) k' =
        labelsGet (shippedLabels (handle s true r)) k' := by
  refine ⟨rfl, rfl, ?_, ?_⟩
  · rw [shippedLabels_handle_true, labelsGet_buildLabels, getAttrs_eq_none _ _ hfresh]
  · intro k' hk'
    rw [shippedLabels_handle_true, shippedLabels_handle_true, labelsGet_buildLabels,
      labelsGet_buildLabels]
    show getAttrs (r.attrs ++ (s.attrs ++ extra)) k' = _
    rw [← List.append_assoc, getAttrs_append, getAttrs_eq_none extra k' hk']

/-- C7 witness: parent with attr `p`, record attr `r`, child extra attr `x`;
the parent's shipped labels lack `x`, and the child agrees with the parent
on the untouched key `p`. -/
theorem handler_derivation_isolation_witness :
    labelsGet (shippedLabels (handle ⟨[⟨"p", "1"⟩], []⟩ true ⟨0, 0, "m", [⟨"r", "3"⟩]⟩))
      "x" = none ∧
    labelsGet (shippedLabels (handle (withAttrs ⟨[⟨"p", "1"⟩], []⟩ [⟨"x", "2"⟩]) true
        ⟨0, 0, "m", [⟨"r", "3"⟩]⟩)) "p" =
      labelsGet (shippedLabels (handle ⟨[⟨"p", "1"⟩], []⟩ true ⟨0, 0, "m", [⟨"r", "3"⟩]⟩))
        "p" := by
  have h := handler_derivation_isolation ⟨[⟨"p", "1"⟩], []⟩ [⟨"x", "2"⟩]
    ⟨0, 0, "m", [⟨"r", "3"⟩]⟩ "x" (by decide) (by decide)
  exact ⟨h.2.2.1, h.2.2.2 "p" (by decide)⟩

end Lease
